import Mathlib

/-!
Verification of the orchestration and aggregation engine of the
octofhir/fhirpath-benchmarks runner (Rust, `src/runner/src`).

The development shallowly embeds the core of the runner:

* `BaseRunner.executeCommand` (`implementations/mod.rs`): the process invoker,
  built on tokio's `timeout(duration, cmd.output())`.  The interaction with
  the outside world is modelled by a `CommandBehavior` describing what the
  spawned child would do, and the invoker returns both the Rust-level
  `Result` value and whether a spawned child process is still alive when the
  call returns.
* `TestResult` / `BenchmarkResult` construction and mutation
  (`results.rs`): `new`, `add_test_case`, `create_error_test_result`,
  `create_error_benchmark_result`, and the per-runner fallback
  `parse_test_output`.
* `BaseRunner.loadResultFromFile` (`implementations/mod.rs`): the result
  resolver over a list of glob candidates.
* The shared `run_tests` / `run_benchmarks` body of the per-implementation
  runners (`implementations/*.rs`), the runner registry `create_runner`, and
  the sequential / parallel orchestration loops of `runner.rs`.
* `ComparisonReport::calculate_summary` and `StatisticalSummary::calculate`
  (`results.rs`).

Machine floats (`f64`) carry exact rational values in every computation the
claims touch; they are modelled by `ℚ`, except where NaN propagation is
relevant (`avg_time_per_case_ms`, compared with `partial_cmp`), where the
model is `F64 = finite ℚ | nan`.  `u128`/`usize` counters are modelled by
`ℕ`.
-/

namespace FhirpathBench

/-! ## Process invoker (`BaseRunner::execute_command`, implementations/mod.rs lines 40-64) -/

/-- Exit status of a completed child process; the source only ever queries
`status.success()`. -/
inductive ExitStatus where
  | success
  | exitFailure
deriving DecidableEq, Repr

/-- Captured output of a completed child process (`std::process::Output`). -/
structure ProcOutput where
  status : ExitStatus
  stdout : String
  stderr : String
deriving DecidableEq, Repr

/-- Behavior of the external world for one command invocation: whether the
spawn succeeds, how many wall-clock seconds the child needs to finish on its
own, and the output it produces if it finishes. -/
structure CommandBehavior where
  spawnOk : Bool
  runSecs : Nat
  output : ProcOutput
deriving DecidableEq, Repr

/-- The error cases of `BaseRunner::execute_command`: the explicit empty-command
bail, a spawn/IO failure (`Command execution failed`), and the elapsed
timeout (`Command timed out after .. seconds`). -/
inductive ExecError where
  | emptyCommand
  | executionFailed (msg : String)
  | timedOut (secs : Nat)
deriving DecidableEq, Repr

instance {ε α : Type} [DecidableEq ε] [DecidableEq α] : DecidableEq (Except ε α) := fun x y =>
  match x, y with
  | .ok a, .ok b =>
      if h : a = b then .isTrue (h ▸ rfl)
      else .isFalse (fun hc => h (Except.ok.inj hc))
  | .error e, .error f =>
      if h : e = f then .isTrue (h ▸ rfl)
      else .isFalse (fun hc => h (Except.error.inj hc))
  | .ok _, .error _ => .isFalse (fun hc => Except.noConfusion hc)
  | .error _, .ok _ => .isFalse (fun hc => Except.noConfusion hc)

/-- What one `execute_command` call leaves behind: the returned `Result`
value, and whether the spawned child process is still alive at the moment the
call returns. -/
structure ExecResult where
  result : Except ExecError ProcOutput
  childAliveAfterReturn : Bool
deriving DecidableEq, Repr

/-- tokio `Command` kill-on-drop flag.  The source constructs the command with
`Command::new` and never calls `kill_on_drop(true)`; tokio's default is
`false`, so dropping the `cmd.output()` future when `timeout` elapses does
not terminate the child process. -/
def killOnDrop : Bool := false

/-- `BaseRunner::execute_command` (implementations/mod.rs lines 40-64).
Empty command bails with `InvalidCommand`; a failed spawn surfaces as
`Ok(Err(e))` and bails with `Command execution failed` (no child was
started); a child finishing within the timeout is waited for and reaped
(`Ok(Ok(output))`); when the timeout elapses first, the `cmd.output()`
future is dropped and the call bails with the timeout message — the child is
killed on that drop only when `killOnDrop` is set. -/
def executeCommand (command : List String) (timeoutSecs : Nat)
    (beh : CommandBehavior) : ExecResult :=
  if command.isEmpty then
    { result := .error .emptyCommand, childAliveAfterReturn := false }
  else if !beh.spawnOk then
    { result := .error (.executionFailed "Command execution failed"),
      childAliveAfterReturn := false }
  else if beh.runSecs < timeoutSecs then
    { result := .ok beh.output, childAliveAfterReturn := false }
  else
    { result := .error (.timedOut timeoutSecs),
      childAliveAfterReturn := !killOnDrop }

/-! ## Result data model (`results.rs`) -/

/-- Model of `serde_json::Value` fields (`expected`, `actual`); no claim
inspects their structure, only their presence. -/
def JsonValue : Type := String

instance : DecidableEq JsonValue := inferInstanceAs (DecidableEq String)

instance : Repr JsonValue := inferInstanceAs (Repr String)

/-- `utils::SystemInfo`. -/
structure SystemInfo where
  os : String
  arch : String
  cpu_count : Nat
  total_memory : Nat
  available_memory : Nat
deriving DecidableEq, Repr

/-- `utils::get_system_info` probes the machine with `sysinfo`; the probed
values are ambient and never inspected by any claim, so the model fixes
them. -/
def get_system_info : SystemInfo :=
  { os := "Unknown", arch := "Unknown", cpu_count := 0,
    total_memory := 0, available_memory := 0 }

/-- `ExecutionTiming` (results.rs lines 25-31). -/
structure ExecutionTiming where
  setup_time_ms : Nat
  execution_time_ms : Nat
  teardown_time_ms : Nat
  total_time_ms : Nat
deriving DecidableEq, Repr

/-- `TestCaseResult` (results.rs lines 80-90). -/
structure TestCaseResult where
  name : String
  file : String
  passed : Bool
  execution_time_ms : Nat
  expected : JsonValue
  actual : Option JsonValue
  error : Option String
  metadata : List (String × JsonValue)
deriving DecidableEq, Repr

/-- `TestSummary` (results.rs lines 110-117). -/
structure TestSummary where
  total : Nat
  passed : Nat
  failed : Nat
  errors : Nat
  execution_time_ms : Nat
deriving DecidableEq, Repr

/-- Model of an `f64` as deserialized from a result file: a finite value
(held exactly as a rational) or NaN. -/
inductive F64 where
  | finite (q : ℚ)
  | nan
deriving DecidableEq, Repr

/-- `f64::partial_cmp`: `None` whenever either side is NaN, the exact order
of the values otherwise. -/
def F64.partialCmp : F64 → F64 → Option Ordering
  | .finite a, .finite b =>
      some (if a < b then .lt else if a = b then .eq else .gt)
  | _, _ => none

/-- `BenchmarkSummary` (results.rs lines 119-125).  `avg_time_per_case_ms`
is the one float a `partial_cmp` is taken of, so it keeps the NaN case. -/
structure BenchmarkSummary where
  total_cases : Nat
  total_iterations : Nat
  total_time_ms : Nat
  avg_time_per_case_ms : F64
deriving DecidableEq, Repr

/-- `BenchmarkCaseResult` (results.rs lines 92-108), statistics fields
modelled as exact rationals. -/
structure BenchmarkCaseResult where
  name : String
  file : String
  iterations : Nat
  total_time_ms : Nat
  avg_time_ms : ℚ
  median_time_ms : ℚ
  min_time_ms : Nat
  max_time_ms : Nat
  std_dev_ms : ℚ
  times : List Nat
  warmup_iterations : Nat
  error : Option String
deriving DecidableEq, Repr

/-- `ResultMetadata` (results.rs lines 127-133). -/
structure ResultMetadata where
  runner_version : String
  format_version : String
  environment : List (String × String)
  command_line : List String
deriving DecidableEq, Repr

/-- `ResultMetadata::new` (results.rs lines 494-513): the version, the
PATH/HOME snapshot and the argv are ambient process state never read by a
claim; the format version is the literal from the source. -/
def ResultMetadata.new : ResultMetadata :=
  { runner_version := "", format_version := "2.0",
    environment := [], command_line := [] }

/-- `TestResult` (results.rs lines 47-62).  `id` (`Uuid::new_v4`) and
`timestamp` (`Utc::now`) are ambient nondeterministic values no claim reads;
they are modelled as `0`. -/
structure TestResult where
  id : Nat
  language : String
  timestamp : Nat
  execution_time_ms : Nat
  timing : ExecutionTiming
  system_info : SystemInfo
  tests : List TestCaseResult
  summary : TestSummary
  metadata : ResultMetadata
  error : Option String
deriving DecidableEq, Repr

/-- `TestResult::new` (results.rs lines 156-182). -/
def TestResult.new (language : String) (system_info : SystemInfo) : TestResult :=
  { id := 0
    language := language
    timestamp := 0
    execution_time_ms := 0
    timing := { setup_time_ms := 0, execution_time_ms := 0,
                teardown_time_ms := 0, total_time_ms := 0 }
    system_info := system_info
    tests := []
    summary := { total := 0, passed := 0, failed := 0, errors := 0,
                 execution_time_ms := 0 }
    metadata := ResultMetadata.new
    error := none }

/-- `TestResult::add_test_case` (results.rs lines 184-195). -/
def TestResult.add_test_case (r : TestResult) (test_case : TestCaseResult) :
    TestResult :=
  let s := r.summary
  let s := { s with total := s.total + 1 }
  let s :=
    if test_case.passed then { s with passed := s.passed + 1 }
    else if test_case.error.isSome then { s with errors := s.errors + 1 }
    else { s with failed := s.failed + 1 }
  let s := { s with execution_time_ms := s.execution_time_ms + test_case.execution_time_ms }
  { r with summary := s, tests := r.tests ++ [test_case] }

/-- `BenchmarkResult` (results.rs lines 64-78). -/
structure BenchmarkResult where
  id : Nat
  language : String
  timestamp : Nat
  timing : ExecutionTiming
  benchmarks : List BenchmarkCaseResult
  system_info : SystemInfo
  summary : BenchmarkSummary
  metadata : ResultMetadata
  error : Option String
deriving DecidableEq, Repr

/-- `BenchmarkResult::new` (results.rs lines 312-336). -/
def BenchmarkResult.new (language : String) (system_info : SystemInfo) :
    BenchmarkResult :=
  { id := 0
    language := language
    timestamp := 0
    timing := { setup_time_ms := 0, execution_time_ms := 0,
                teardown_time_ms := 0, total_time_ms := 0 }
    benchmarks := []
    system_info := system_info
    summary := { total_cases := 0, total_iterations := 0, total_time_ms := 0,
                 avg_time_per_case_ms := .finite 0 }
    metadata := ResultMetadata.new
    error := none }

/-- `BaseRunner::create_error_test_result` (implementations/mod.rs lines
66-71): a fresh result with the error text attached and `summary.errors`
forced to 1 — note that `summary.total` is left at 0. -/
def createErrorTestResult (language err : String) : TestResult :=
  let result := TestResult.new language get_system_info
  { result with
      error := some err,
      summary := { result.summary with errors := 1 } }

/-- `BaseRunner::create_error_benchmark_result` (implementations/mod.rs lines
73-77). -/
def createErrorBenchmarkResult (language err : String) :
    BenchmarkResult :=
  let result := BenchmarkResult.new language get_system_info
  { result with error := some err }

/-! ## Result resolver (`BaseRunner::load_result_from_file`,
implementations/mod.rs lines 79-98) -/

/-- One glob candidate in the results directory, as the resolver sees it:
unreadable (`tokio::fs::read_to_string` fails), readable but not
schema-conformant (`serde_json::from_str` fails), or parsed to a value. -/
inductive ResultFile (T : Type) where
  | unreadable
  | malformed
  | parsed (value : T)
deriving DecidableEq, Repr

/-- `BaseRunner::load_result_from_file`: walk the glob candidates in order;
the first one that reads and parses is returned as `Ok(Some ..)`; unreadable
and malformed candidates are skipped by the `if let Ok` chains; when the list
runs out (or the glob itself failed, modelled by the empty list) the
function falls through to `Ok(None)`.  The `Result` wrapper is kept to show
the function has no `Err` path. -/
def loadResultFromFile {T : Type} : List (ResultFile T) → Except String (Option T)
  | [] => .ok none
  | .parsed v :: _ => .ok (some v)
  | .unreadable :: rest => loadResultFromFile rest
  | .malformed :: rest => loadResultFromFile rest

/-- The value of a candidate if it parses, `none` otherwise. -/
def ResultFile.parsedValue {T : Type} : ResultFile T → Option T
  | .parsed v => some v
  | _ => none

/-! ## Fallback text parsing (`parse_test_output`) -/

/-- Contiguous-substring test on strings (Rust `str::contains`). -/
def strContainsSub (s pat : String) : Bool :=
  containsAux pat.toList s.toList
where
  containsAux (p : List Char) : List Char → Bool
    | [] => p.isEmpty
    | c :: rest => p.isPrefixOf (c :: rest) || containsAux p rest

/-- Line classifier of `PythonRunner::parse_test_output`
(implementations/python.rs lines 174-181): a line counts as a pass when it
carries a check mark or a `passed`/`PASSED` token, otherwise as a failure
when it carries a cross mark or a `failed`/`FAILED`/`error` token.  The
other runners differ only in the token lists (e.g. javascript.rs lines
110-117 drops the upper-case literals), which no claim depends on. -/
def lineIsPass (line : String) : Bool :=
  strContainsSub line "✅" || strContainsSub line.toLower "passed" ||
    strContainsSub line "PASSED"

/-- Failure/error tokens of `PythonRunner::parse_test_output` (only reached
when `lineIsPass` is false). -/
def lineIsFail (line : String) : Bool :=
  strContainsSub line "❌" || strContainsSub line.toLower "failed" ||
    strContainsSub line "FAILED" || strContainsSub line.toLower "error"

/-- The counting loop of `parse_test_output`: `(passed_count, total_count)`
accumulated over the lines. -/
def countTestLines (lines : List String) : Nat × Nat :=
  lines.foldl
    (fun acc line =>
      if lineIsPass line then (acc.1 + 1, acc.2 + 1)
      else if lineIsFail line then (acc.1, acc.2 + 1)
      else acc)
    (0, 0)

/-- `parse_test_output` (implementations/python.rs lines 166-188 and its
clones in the other runners): build a fresh `TestResult` and fill the
summary with the line counts; `failed` is the `usize` difference
`total_count - passed_count` and `errors` is left at 0. -/
def parseTestOutput (language output : String) : TestResult :=
  let result := TestResult.new language get_system_info
  let counts := countTestLines (output.splitOn "\n")
  { result with
      summary := { result.summary with
                     total := counts.2,
                     passed := counts.1,
                     failed := counts.2 - counts.1 } }

/-! ## Per-implementation runners (`implementations/*.rs`) -/

/-- `ImplementationConfig` (config.rs lines 17-24). -/
structure ImplementationConfig where
  name : String
  setup_command : List String
  test_command : List String
  benchmark_command : List String
  timeout_seconds : Nat
  env_vars : List (String × String)
deriving DecidableEq, Repr

/-- Shared `run_tests` body of the seven runners (e.g.
implementations/python.rs lines 91-126, javascript.rs lines 45-71): run the
test command under the configured timeout (any `execute_command` error,
timeout included, is propagated by `?`); a non-zero exit becomes an error
result; otherwise the structured result file wins, and failing that the
stdout fallback parse.  `langKey` is the lower-case language key each runner
hard-codes.  The interpreter substitution done by python.rs only rewrites
`command[0]` and is absorbed into the behavior argument; rust.rs is absent
from the sources and is modelled from the spec's default variant, which is
this same body. -/
def runTestsShared (langKey : String) (cfg : ImplementationConfig)
    (beh : CommandBehavior) (files : List (ResultFile TestResult)) :
    Except ExecError TestResult :=
  match (executeCommand cfg.test_command cfg.timeout_seconds beh).result with
  | .error e => .error e
  | .ok output =>
    if output.status ≠ .success then
      .ok (createErrorTestResult langKey output.stderr)
    else
      match loadResultFromFile files with
      | .error _ => .ok (parseTestOutput langKey output.stdout)
      | .ok (some result) => .ok result
      | .ok none => .ok (parseTestOutput langKey output.stdout)

/-- Shared `run_benchmarks` body of the seven runners (e.g.
implementations/python.rs lines 128-162): like `runTestsShared`, but with no
text fallback — a missing result file becomes an error result. -/
def runBenchmarksShared (langKey : String) (cfg : ImplementationConfig)
    (beh : CommandBehavior) (files : List (ResultFile BenchmarkResult)) :
    Except ExecError BenchmarkResult :=
  match (executeCommand cfg.benchmark_command cfg.timeout_seconds beh).result with
  | .error e => .error e
  | .ok output =>
    if output.status ≠ .success then
      .ok (createErrorBenchmarkResult langKey output.stderr)
    else
      match loadResultFromFile files with
      | .error _ => .ok (createErrorBenchmarkResult langKey "No results file generated")
      | .ok (some result) => .ok result
      | .ok none => .ok (createErrorBenchmarkResult langKey "No results file generated")

/-! ## Runner registry and orchestration (`implementations/mod.rs` lines
101-112, `runner.rs`) -/

/-- The seven runner variants of the registry. -/
inductive RunnerTag where
  | javascript
  | python
  | java
  | csharp
  | rust
  | go
  | clojure
deriving DecidableEq, Repr

/-- A value that is either produced normally or aborted the thread by a Rust
`panic!`. -/
inductive Panics (α : Type) where
  | value (a : α)
  | panicked (msg : String)
deriving DecidableEq, Repr

/-- `create_runner` (implementations/mod.rs lines 101-112): exact-string
dispatch over the seven registered identities; every other string hits the
`panic!("Unsupported language: ..")` arm. -/
def createRunner (language : String) : Panics RunnerTag :=
  if language = "javascript" then .value .javascript
  else if language = "python" then .value .python
  else if language = "java" then .value .java
  else if language = "csharp" then .value .csharp
  else if language = "rust" then .value .rust
  else if language = "go" then .value .go
  else if language = "clojure" then .value .clojure
  else .panicked ("Unsupported language: " ++ language)

/-- The seven registered identity strings, in registry order. -/
def registeredLanguages : List String :=
  ["javascript", "python", "java", "csharp", "rust", "go", "clojure"]

/-- Errors `run_tests_for_language` can return as values (anyhow errors):
a language missing from the configuration map, or an error propagated from
`execute_command`. -/
inductive RunError where
  | unknownImplementation (language : String)
  | exec (e : ExecError)
deriving DecidableEq, Repr

/-- Outcome of one `run_tests_for_language` call: a value, an error value,
or a process-aborting panic. -/
inductive StepResult (α : Type) where
  | ok (a : α)
  | err (e : RunError)
  | panicked (msg : String)
deriving DecidableEq, Repr

/-- The environment one run executes in: the configuration map, what each
language's test command does when invoked, and the result-file candidates
its results directory offers.  Test-suite loading (`TestCaseLoader`) only
prints a count and its failure modes are outside every claim. -/
structure World where
  implementations : List (String × ImplementationConfig)
  behavior : String → CommandBehavior
  resultFiles : String → List (ResultFile TestResult)

/-- `Runner::run_tests_for_language` (runner.rs lines 94-111): the
configuration lookup happens first and failure there is an error value; only
then is `create_runner` reached, whose panic aborts the run; finally the
runner's `run_tests` result (or propagated error) is returned. -/
def runTestsForLanguage (w : World) (language : String) : StepResult TestResult :=
  match (w.implementations.lookup language) with
  | none => .err (.unknownImplementation language)
  | some cfg =>
    match createRunner language with
    | .panicked msg => .panicked msg
    | .value _ =>
      match runTestsShared language cfg (w.behavior language) (w.resultFiles language) with
      | .error e => .err (.exec e)
      | .ok r => .ok r

/-- `Runner::run_tests` (runner.rs lines 81-92): the sequential loop; the
`?` on each `run_tests_for_language` call aborts the whole loop on the first
error, discarding results already collected and never reaching the remaining
languages. -/
def runnerRunTests (w : World) : List String → StepResult (List TestResult)
  | [] => .ok []
  | language :: rest =>
    match runTestsForLanguage w language with
    | .err e => .err e
    | .panicked m => .panicked m
    | .ok r =>
      match runnerRunTests w rest with
      | .ok rs => .ok (r :: rs)
      | .err e => .err e
      | .panicked m => .panicked m

/-- `Runner::run_parallel_tests` (runner.rs lines 145-165): every language's
future runs to completion (`join_all`), then errors are printed and dropped
while successes are collected in order.  A panic in any task still aborts. -/
def runnerRunParallelTests (w : World) (languages : List String) :
    StepResult (List TestResult) :=
  let results := languages.map (runTestsForLanguage w)
  if results.any (fun r => match r with | .panicked _ => true | _ => false) then
    .panicked "task panicked"
  else
    .ok (results.filterMap (fun r => match r with | .ok t => some t | _ => none))

/-! ## Comparison builder (`ComparisonReport::calculate_summary`,
results.rs lines 529-569) -/

/-- `f64::partial_cmp` on two floats that are known to carry finite values
(the pass rates computed at results.rs lines 548-557 are quotients of
`usize` counts, never NaN): always `Some` of the exact order. -/
def qPartialCmp (a b : ℚ) : Option Ordering :=
  some (if a < b then .lt else if a = b then .eq else .gt)

/-- `std::cmp::min_by(acc, next, compare)`: keeps `acc` unless the
comparison says `Greater`. -/
def minKeep {α : Type} (cmp : α → α → Ordering) (acc y : α) : α :=
  match cmp acc y with
  | .gt => y
  | _ => acc

/-- `std::cmp::max_by(acc, next, compare)`: keeps `acc` only when the
comparison says `Greater`, so on ties the later element wins. -/
def maxKeep {α : Type} (cmp : α → α → Ordering) (acc y : α) : α :=
  match cmp acc y with
  | .gt => acc
  | _ => y

/-- Rust `Iterator::min_by`: a `reduce` with `cmp::min_by(acc, next)` — the
first of several minimal elements survives. -/
def minByFirst {α : Type} (cmp : α → α → Ordering) : List α → Option α
  | [] => none
  | x :: xs => some (xs.foldl (minKeep cmp) x)

/-- Rust `Iterator::max_by`: a `reduce` with `cmp::max_by(acc, next)` — the
last of several maximal elements survives. -/
def maxByLast {α : Type} (cmp : α → α → Ordering) : List α → Option α
  | [] => none
  | x :: xs => some (xs.foldl (maxKeep cmp) x)

/-- The pass rate of results.rs lines 548-557: `passed / total` with a zero
total explicitly mapped to `0.0`. -/
def passRate (r : TestResult) : ℚ :=
  if r.summary.total > 0 then (r.summary.passed : ℚ) / (r.summary.total : ℚ)
  else 0

/-- The comparator of results.rs lines 537-541:
`avg_time_per_case_ms.partial_cmp(..).unwrap_or(Equal)`. -/
def fastCmp (a b : BenchmarkResult) : Ordering :=
  (F64.partialCmp a.summary.avg_time_per_case_ms
      b.summary.avg_time_per_case_ms).getD .eq

/-- `fastest_implementation` (results.rs lines 535-542): `min_by` over the
benchmark results with `fastCmp`, then the winner's language. -/
def fastestImplementation (benchmark_results : List BenchmarkResult) :
    Option String :=
  (minByFirst fastCmp benchmark_results).map (fun r => r.language)

/-- The comparator of results.rs lines 547-558:
`a_rate.partial_cmp(&b_rate).unwrap_or(Equal)`. -/
def rateCmp (a b : TestResult) : Ordering :=
  (qPartialCmp (passRate a) (passRate b)).getD .eq

/-- `most_compliant_implementation` (results.rs lines 545-560): `max_by`
over the test results with `rateCmp`, then the winner's language. -/
def mostCompliantImplementation (test_results : List TestResult) :
    Option String :=
  (maxByLast rateCmp test_results).map (fun r => r.language)

/-- `ComparisonSummary` (results.rs lines 147-154). -/
structure ComparisonSummary where
  languages_tested : Nat
  total_tests : Nat
  total_benchmarks : Nat
  fastest_implementation : Option String
  most_compliant_implementation : Option String
deriving DecidableEq, Repr

/-- `ComparisonReport::calculate_summary` (results.rs lines 529-569). -/
def calculateSummary (test_results : List TestResult)
    (benchmark_results : List BenchmarkResult) : ComparisonSummary :=
  { languages_tested := max test_results.length benchmark_results.length
    total_tests := (test_results.map (fun r => r.summary.total)).sum
    total_benchmarks := (benchmark_results.map (fun r => r.summary.total_cases)).sum
    fastest_implementation := fastestImplementation benchmark_results
    most_compliant_implementation := mostCompliantImplementation test_results }

/-! ## Statistical aggregator (`StatisticalSummary::calculate`,
results.rs lines 597-658) -/

/-- `StatisticalSummary` (results.rs lines 33-45).  `std_dev` is the one
field produced by `f64::sqrt`, so it lives in `ℝ`; every other field is an
exact rational computation. -/
structure StatisticalSummary where
  mean : ℚ
  median : ℚ
  std_dev : ℝ
  percentile_95 : ℚ
  percentile_99 : ℚ
  min : ℚ
  max : ℚ

/-- `StatisticalSummary::percentile` (results.rs lines 643-658): linear
interpolation between the two nearest ranks of the sorted list at index
`(p/100) * (n-1)`. -/
def StatisticalSummary.percentile (sorted_values : List ℚ) (p : ℚ) : ℚ :=
  if sorted_values.isEmpty then 0
  else
    let index : ℚ := (p / 100) * ((sorted_values.length - 1 : ℕ) : ℚ)
    let lower_index : ℕ := (Int.floor index).toNat
    let upper_index : ℕ := (Int.ceil index).toNat
    if lower_index = upper_index then sorted_values.getD lower_index 0
    else
      let weight : ℚ := index - (lower_index : ℚ)
      sorted_values.getD lower_index 0 * (1 - weight) +
        sorted_values.getD upper_index 0 * weight

/-- `StatisticalSummary::calculate` (results.rs lines 598-641), with the
`f64` arithmetic idealized as exact rational arithmetic.  The
`sort_by(partial_cmp .. unwrap_or Equal)` is, on finite values, a comparison
sort for `≤`, modelled by `mergeSort`; indexing is in-bounds in every branch
the source reaches, so `getD .. 0` agrees with the source's panicking
indexing.  `std_dev` is the square root of the population variance (divide
by N).  The exact-arithmetic idealization is faithful for everything that
only selects and indexes sample values (median, min, max, percentile ranks
on exactly-representable samples), but NOT for the rounding-sensitive
`mean`/`std_dev` chain: the binary64 semantics of that chain is modelled
separately below (`meanF64`, `varianceF64`, `stdDevF64`). -/
noncomputable def StatisticalSummary.calculate (values : List ℚ) :
    StatisticalSummary :=
  if values.isEmpty then
    { mean := 0, median := 0, std_dev := 0, percentile_95 := 0,
      percentile_99 := 0, min := 0, max := 0 }
  else
    let sorted_values := values.mergeSort (fun a b => decide (a ≤ b))
    let mean := values.sum / (values.length : ℚ)
    let median :=
      if sorted_values.length % 2 = 0 then
        (sorted_values.getD (sorted_values.length / 2 - 1) 0 +
          sorted_values.getD (sorted_values.length / 2) 0) / 2
      else
        sorted_values.getD (sorted_values.length / 2) 0
    let variance := (values.map (fun x => (x - mean) ^ 2)).sum / (values.length : ℚ)
    { mean := mean
      median := median
      std_dev := Real.sqrt (variance : ℝ)
      percentile_95 := StatisticalSummary.percentile sorted_values 95
      percentile_99 := StatisticalSummary.percentile sorted_values 99
      min := sorted_values.getD 0 0
      max := sorted_values.getD (sorted_values.length - 1) 0 }

/-! ## Reference definitions written from the spec's words, for comparison
with the code-derived definitions above -/

/-- The conventional median over the sorted list (spec section 8): middle
element for odd length, average of the two middle elements for even length.
The reference sort is Mathlib's insertion sort, deliberately a different
algorithm from the `mergeSort` used in the embedding of the source. -/
def conventionalMedian (values : List ℚ) : ℚ :=
  let s := List.insertionSort (· ≤ ·) values
  if values.length % 2 = 0 then
    (s.getD (values.length / 2 - 1) 0 + s.getD (values.length / 2) 0) / 2
  else
    s.getD (values.length / 2) 0

/-- Reference for the spec's "lowest value, ties broken by first encountered
in iteration order": the first element of the list attaining the minimal
key. -/
def firstMinSpec {α : Type} (k : α → ℚ) : List α → Option α
  | [] => none
  | x :: xs =>
    match firstMinSpec k xs with
    | none => some x
    | some m => some (if k m < k x then m else x)

/-! ## IEEE binary64 semantics of the aggregator's float arithmetic

`StatisticalSummary.calculate` above carries the source's `f64` arithmetic
out exactly over `ℚ`.  That idealization is adequate where only comparisons
and selection of sample values matter (sorting, indexing, min/max), but not
for cancellation-sensitive derived quantities: the `std_dev` chain rounds at
every step.  The model below is bit-faithful on the normal finite range: a
binary64 value is the exact rational it denotes, and each arithmetic step
rounds its exact result to 53 significand bits, to nearest, ties to even
(the IEEE 754 default).  The exponent is unbounded, which agrees with IEEE
754 wherever no overflow or subnormal occurs — true of every computation in
this development (all magnitudes lie between `2^-112` and 1). -/

/-- Round a rational to the nearest integer, ties to even. -/
def rne (m : ℚ) : ℤ :=
  if m - ⌊m⌋ < 1 / 2 then ⌊m⌋
  else if 1 / 2 < m - ⌊m⌋ then ⌊m⌋ + 1
  else if 2 ∣ ⌊m⌋ then ⌊m⌋ else ⌊m⌋ + 1

/-- Round a rational to the nearest binary64 value: scale the magnitude into
`[2^52, 2^53)` using its binade `Int.log 2`, round the significand to an
integer (ties to even), and scale back. -/
def fl53 (x : ℚ) : ℚ :=
  if x = 0 then 0
  else if 0 < x then
    (rne (x / 2 ^ (Int.log 2 x - 52)) : ℚ) * 2 ^ (Int.log 2 x - 52)
  else
    -((rne (-x / 2 ^ (Int.log 2 (-x) - 52)) : ℚ) * 2 ^ (Int.log 2 (-x) - 52))

/-- binary64 addition: exact sum, one rounding. -/
def addF64 (a b : ℚ) : ℚ := fl53 (a + b)

/-- binary64 subtraction: exact difference, one rounding. -/
def subF64 (a b : ℚ) : ℚ := fl53 (a - b)

/-- binary64 multiplication: exact product, one rounding (`powi(2)` lowers
to one multiplication). -/
def mulF64 (a b : ℚ) : ℚ := fl53 (a * b)

/-- binary64 division: exact quotient, one rounding. -/
def divF64 (a b : ℚ) : ℚ := fl53 (a / b)

/-- Exact square root of a rational whose numerator and denominator are
perfect squares — the only arguments `sqrtF64` receives in this development;
on other inputs this is merely the integer-square-root approximation. -/
def ratSqrt (x : ℚ) : ℚ := (Int.sqrt x.num : ℚ) / (Nat.sqrt x.den : ℚ)

/-- binary64 square root.  IEEE `sqrt` is correctly rounded, so on arguments
whose exact square root is representable — every use below — this equals the
hardware result. -/
def sqrtF64 (x : ℚ) : ℚ := fl53 (ratSqrt x)

/-- `values.iter().sum::<f64>()`: left fold of binary64 addition from 0. -/
def sumF64 (values : List ℚ) : ℚ := values.foldl addF64 0

/-- The mean of results.rs line 614 under binary64 arithmetic
(`values.len() as f64` is exact for any realistic length). -/
def meanF64 (values : List ℚ) : ℚ :=
  divF64 (sumF64 values) ((values.length : ℚ))

/-- The population variance of results.rs lines 621-624 under binary64
arithmetic: each `(x - mean).powi(2)` is one rounded subtraction and one
rounded multiplication, summed by the rounded fold and divided by `N`. -/
def varianceF64 (values : List ℚ) : ℚ :=
  divF64
    (sumF64 (values.map fun x =>
      mulF64 (subF64 x (meanF64 values)) (subF64 x (meanF64 values))))
    ((values.length : ℚ))

/-- The `std_dev` field of `StatisticalSummary::calculate` (results.rs line
625) under binary64 arithmetic. -/
def stdDevF64 (values : List ℚ) : ℚ := sqrtF64 (varianceF64 values)

/-- The binary64 value of the literal `0.1`:
`0x1.999999999999Ap-4 = 3602879701896397 / 2^55`. -/
def v01 : ℚ := 3602879701896397 / 2 ^ 55

/-! ## Concrete result constructors used by scenario statements -/

/-- A benchmark result as deserialized from a handoff file, with the given
language and average time per case. -/
def mkBench (language : String) (avg : F64) : BenchmarkResult :=
  let r := BenchmarkResult.new language get_system_info
  { r with summary := { r.summary with avg_time_per_case_ms := avg } }

/-- A benchmark result with a finite average, keyed by a `(language, avg)`
pair; quantifying over lists of such pairs expresses "all averages are
finite (non-NaN)" by construction. -/
def benchOf (q : String × ℚ) : BenchmarkResult :=
  mkBench q.1 (F64.finite q.2)

/-- One step of the reference first-minimum fold over `(language, avg)`
pairs: the accumulator survives ties and smaller keys. -/
def pairMin (a q : String × ℚ) : String × ℚ :=
  if q.2 < a.2 then q else a

/-- A test result as deserialized from a handoff file, with the given
language and summary counts. -/
def mkTest (language : String) (passed total : Nat) : TestResult :=
  let r := TestResult.new language get_system_info
  { r with summary := { r.summary with passed := passed, total := total } }

/-! ## Concrete fixtures for scenario statements and witnesses -/

/-- A configuration whose commands time out after one second. -/
def timeoutConfig : ImplementationConfig :=
  { name := "Python"
    setup_command := ["python", "setup.py"]
    test_command := ["python", "test_runner.py"]
    benchmark_command := ["python", "benchmark_runner.py"]
    timeout_seconds := 1
    env_vars := [] }

/-- A configuration with an ample timeout. -/
def jsConfig : ImplementationConfig :=
  { name := "JavaScript"
    setup_command := ["npm", "install"]
    test_command := ["npm", "test"]
    benchmark_command := ["npm", "run", "benchmark"]
    timeout_seconds := 600
    env_vars := [] }

/-- A child that needs ten seconds of wall-clock time (`sleep 10`). -/
def sleepBehavior : CommandBehavior :=
  { spawnOk := true, runSecs := 10,
    output := { status := .success, stdout := "", stderr := "" } }

/-- A child that finishes immediately with a zero exit. -/
def quickOkBehavior : CommandBehavior :=
  { spawnOk := true, runSecs := 0,
    output := { status := .success, stdout := "", stderr := "" } }

/-- A child that finishes immediately with a non-zero exit. -/
def failExitBehavior : CommandBehavior :=
  { spawnOk := true, runSecs := 0,
    output := { status := .exitFailure, stdout := "", stderr := "build failed" } }

/-- Two configured implementations; the python test command hangs past its
one-second timeout, the javascript one completes at once. -/
def seqWorld : World :=
  { implementations := [("python", timeoutConfig), ("javascript", jsConfig)]
    behavior := fun language =>
      if language = "python" then sleepBehavior else quickOkBehavior
    resultFiles := fun _ => [] }

/-- A configuration map carrying an identity outside the seven registered
ones. -/
def rubyWorld : World :=
  { implementations := [("ruby", jsConfig)]
    behavior := fun _ => quickOkBehavior
    resultFiles := fun _ => [] }

/-! ## Theorems -/

/-- Claim C1: the spec demands that a child that outlives its timeout is
terminated before `execute_command` returns.  The code as written violates
this: with command `sleep 10` and a one-second timeout the call does return
the `Timeout` failure, but dropping the tokio `cmd.output()` future without
`kill_on_drop` leaves the child process running after the call has
returned. -/
theorem executeCommand_timeout_leaves_child_running :
    executeCommand ["sleep", "10"] 1 sleepBehavior =
      { result := .error (.timedOut 1), childAliveAfterReturn := true } := by
  rfl

/-- Claim C9: the result resolver returns the first candidate that parses,
silently skipping unreadable and malformed candidates, and yields
`Ok(None)` — never a failure — when no candidate parses; a directory holding
only one malformed file yields `Ok(None)`, and the calling runner then falls
back to text parsing of the captured stdout. -/
theorem loadResultFromFile_first_success (T : Type) (files : List (ResultFile T)) :
    loadResultFromFile files = Except.ok (files.findSome? ResultFile.parsedValue) ∧
    loadResultFromFile ([ResultFile.malformed] : List (ResultFile T)) = Except.ok none ∧
    runTestsShared "python" jsConfig quickOkBehavior [ResultFile.malformed] =
      Except.ok (parseTestOutput "python" "") := by
  refine ⟨?_, rfl, rfl⟩
  induction files with
  | nil => rfl
  | cons f rest ih =>
      cases f <;>
        simp [loadResultFromFile, ResultFile.parsedValue, List.findSome?_cons, ih]

lemma add_test_case_preserves_invariant (r : TestResult) (c : TestCaseResult)
    (h : r.summary.passed + r.summary.failed + r.summary.errors = r.summary.total) :
    (r.add_test_case c).summary.passed + (r.add_test_case c).summary.failed +
      (r.add_test_case c).summary.errors = (r.add_test_case c).summary.total := by
  simp only [TestResult.add_test_case]
  split_ifs <;> simp <;> omega

lemma foldl_add_test_case_invariant :
    ∀ (cases : List TestCaseResult) (r : TestResult),
      r.summary.passed + r.summary.failed + r.summary.errors = r.summary.total →
      (cases.foldl TestResult.add_test_case r).summary.passed +
        (cases.foldl TestResult.add_test_case r).summary.failed +
        (cases.foldl TestResult.add_test_case r).summary.errors =
        (cases.foldl TestResult.add_test_case r).summary.total := by
  intro cases
  induction cases with
  | nil => intro r h; exact h
  | cons c cs ih =>
      intro r h
      exact ih _ (add_test_case_preserves_invariant r c h)

lemma countLines_fst_le_snd :
    ∀ (lines : List String) (p t : Nat), p ≤ t →
      (lines.foldl
          (fun acc line =>
            if lineIsPass line then (acc.1 + 1, acc.2 + 1)
            else if lineIsFail line then (acc.1, acc.2 + 1)
            else acc)
          (p, t)).1 ≤
        (lines.foldl
          (fun acc line =>
            if lineIsPass line then (acc.1 + 1, acc.2 + 1)
            else if lineIsFail line then (acc.1, acc.2 + 1)
            else acc)
          (p, t)).2 := by
  intro lines
  induction lines with
  | nil => intro p t h; exact h
  | cons l ls ih =>
      intro p t h
      simp only [List.foldl_cons]
      by_cases h1 : lineIsPass l = true
      · simp only [h1, if_true]
        exact ih _ _ (by omega)
      · by_cases h2 : lineIsFail l = true
        · simp only [h1, h2, if_true, if_false, Bool.false_eq_true]
          exact ih _ _ (by omega)
        · simp only [h1, h2, if_false, Bool.false_eq_true]
          exact ih _ _ h

/-- Claim C2, counterexample: the error result built by
`create_error_test_result` has `passed + failed + errors = 1` but
`total = 0`, so the claimed invariant fails on it. -/
theorem createErrorTestResult_violates_summary_invariant :
    ¬ ((createErrorTestResult "python" "Test execution failed").summary.passed +
        (createErrorTestResult "python" "Test execution failed").summary.failed +
        (createErrorTestResult "python" "Test execution failed").summary.errors =
        (createErrorTestResult "python" "Test execution failed").summary.total) := by
  simp [createErrorTestResult, TestResult.new]

/-- Claim C2, amended: `passed + failed + errors = total` holds for a fresh
`TestResult` after any sequence of `add_test_case` calls and for every
result produced by the fallback text parsing, but the error results built by
`create_error_test_result` satisfy `passed + failed + errors = total + 1`
instead (`errors` is forced to 1 while `total` stays 0). -/
theorem testResult_summary_invariant_amended :
    (∀ (language : String) (si : SystemInfo) (cases : List TestCaseResult),
        (cases.foldl TestResult.add_test_case (TestResult.new language si)).summary.passed +
          (cases.foldl TestResult.add_test_case (TestResult.new language si)).summary.failed +
          (cases.foldl TestResult.add_test_case (TestResult.new language si)).summary.errors =
          (cases.foldl TestResult.add_test_case (TestResult.new language si)).summary.total) ∧
    (∀ language output : String,
        (parseTestOutput language output).summary.passed +
          (parseTestOutput language output).summary.failed +
          (parseTestOutput language output).summary.errors =
          (parseTestOutput language output).summary.total) ∧
    (∀ language err : String,
        (createErrorTestResult language err).summary.passed +
          (createErrorTestResult language err).summary.failed +
          (createErrorTestResult language err).summary.errors =
          (createErrorTestResult language err).summary.total + 1) := by
  refine ⟨fun language si cases =>
      foldl_add_test_case_invariant cases _ (by simp [TestResult.new]),
    fun language output => ?_,
    fun language err => by simp [createErrorTestResult, TestResult.new]⟩
  have hle := countLines_fst_le_snd (output.splitOn "\n") 0 0 (le_refl 0)
  simp only [parseTestOutput, countTestLines, TestResult.new]
  omega

/-- Claim C10: every language string outside the seven registered identities
makes `create_runner` panic with `Unsupported language: ..` instead of
returning an error value, and `run_tests_for_language` hits that panic right
after its configuration lookup succeeds, so the run aborts rather than
recording a per-implementation failure. -/
theorem createRunner_unregistered_panics (language : String) (w : World)
    (cfg : ImplementationConfig)
    (hreg : language ∉ registeredLanguages)
    (hlook : w.implementations.lookup language = some cfg) :
    createRunner language = Panics.panicked ("Unsupported language: " ++ language) ∧
    runTestsForLanguage w language =
      StepResult.panicked ("Unsupported language: " ++ language) := by
  have hcr : createRunner language =
      Panics.panicked ("Unsupported language: " ++ language) := by
    simp only [registeredLanguages, List.mem_cons, List.not_mem_nil, or_false,
      not_or] at hreg
    obtain ⟨h1, h2, h3, h4, h5, h6, h7⟩ := hreg
    simp [createRunner, h1, h2, h3, h4, h5, h6, h7]
  refine ⟨hcr, ?_⟩
  simp [runTestsForLanguage, hlook, hcr]

/-- Witness for C10 at the concrete identity `ruby`, configured in
`rubyWorld`. -/
theorem createRunner_unregistered_panics_witness :
    ("ruby" ∉ registeredLanguages) ∧
    rubyWorld.implementations.lookup "ruby" = some jsConfig ∧
    createRunner "ruby" = Panics.panicked ("Unsupported language: " ++ "ruby") ∧
    runTestsForLanguage rubyWorld "ruby" =
      StepResult.panicked ("Unsupported language: " ++ "ruby") := by
  have h1 : ("ruby" : String) ∉ registeredLanguages := by decide
  have h2 : rubyWorld.implementations.lookup "ruby" = some jsConfig := by rfl
  have h := createRunner_unregistered_panics "ruby" rubyWorld jsConfig h1 h2
  exact ⟨h1, h2, h.1, h.2⟩

/-- Claim C4: when the test or benchmark command runs to completion with a
non-zero exit, `run_tests`/`run_benchmarks` return `Ok` — never a hard
failure — carrying an error result whose top-level `error` field is set and
whose summary shows zero successful cases (`passed = 0` for tests, no
benchmark cases for benchmarks). -/
theorem runTests_nonzero_exit_is_soft (language : String)
    (cfg : ImplementationConfig) (beh : CommandBehavior)
    (filesT : List (ResultFile TestResult))
    (filesB : List (ResultFile BenchmarkResult)) (out : ProcOutput)
    (htest : (executeCommand cfg.test_command cfg.timeout_seconds beh).result = .ok out)
    (hbench : (executeCommand cfg.benchmark_command cfg.timeout_seconds beh).result = .ok out)
    (hst : out.status ≠ .success) :
    (runTestsShared language cfg beh filesT =
        .ok (createErrorTestResult language out.stderr) ∧
      (createErrorTestResult language out.stderr).error = some out.stderr ∧
      (createErrorTestResult language out.stderr).summary.passed = 0) ∧
    (runBenchmarksShared language cfg beh filesB =
        .ok (createErrorBenchmarkResult language out.stderr) ∧
      (createErrorBenchmarkResult language out.stderr).error = some out.stderr ∧
      (createErrorBenchmarkResult language out.stderr).benchmarks = [] ∧
      (createErrorBenchmarkResult language out.stderr).summary.total_cases = 0) := by
  constructor
  · refine ⟨?_, by simp [createErrorTestResult, TestResult.new],
      by simp [createErrorTestResult, TestResult.new]⟩
    simp [runTestsShared, htest, hst]
  · refine ⟨?_, by simp [createErrorBenchmarkResult, BenchmarkResult.new],
      by simp [createErrorBenchmarkResult, BenchmarkResult.new],
      by simp [createErrorBenchmarkResult, BenchmarkResult.new]⟩
    simp [runBenchmarksShared, hbench, hst]

/-- Witness for C4: a command exiting non-zero at once under the javascript
configuration. -/
theorem runTests_nonzero_exit_is_soft_witness :
    ((executeCommand jsConfig.test_command jsConfig.timeout_seconds
        failExitBehavior).result = .ok failExitBehavior.output) ∧
    failExitBehavior.output.status ≠ .success ∧
    (runTestsShared "javascript" jsConfig failExitBehavior [] =
        .ok (createErrorTestResult "javascript" failExitBehavior.output.stderr)) ∧
    (runBenchmarksShared "javascript" jsConfig failExitBehavior [] =
        .ok (createErrorBenchmarkResult "javascript" failExitBehavior.output.stderr)) := by
  have h := runTests_nonzero_exit_is_soft "javascript" jsConfig failExitBehavior
    [] [] failExitBehavior.output rfl rfl (by decide)
  exact ⟨rfl, by decide, h.1.1, h.2.1⟩

/-- Claim C3, counterexample: in the sequential loop of `Runner::run_tests`,
the one-second timeout of the python test command is propagated by `?` as a
hard error — the call returns `Err` instead of a result list, no error
result is recorded, and the javascript implementation is never processed. -/
theorem runnerRunTests_timeout_aborts_rest :
    runnerRunTests seqWorld ["python", "javascript"] =
      .err (.exec (.timedOut 1)) := by
  rfl

/-- Claim C3, amended: a test-command timeout is returned as a hard error
from `run_tests_for_language` (never recorded as an error result); the
sequential `run_tests` loop therefore aborts with that error and the
remaining implementations are not processed, while the parallel loop drops
the timed-out implementation and behaves as if only the remaining languages
had been run. -/
theorem timeout_is_hard_error_amended (w : World) (language : String)
    (rest : List String) (cfg : ImplementationConfig)
    (hlook : w.implementations.lookup language = some cfg)
    (hreg : language ∈ registeredLanguages)
    (hcmd : cfg.test_command ≠ [])
    (hspawn : (w.behavior language).spawnOk = true)
    (htime : cfg.timeout_seconds ≤ (w.behavior language).runSecs) :
    runTestsForLanguage w language = .err (.exec (.timedOut cfg.timeout_seconds)) ∧
    runnerRunTests w (language :: rest) =
      .err (.exec (.timedOut cfg.timeout_seconds)) ∧
    runnerRunParallelTests w (language :: rest) = runnerRunParallelTests w rest := by
  have hcr : ∃ tag, createRunner language = Panics.value tag := by
    simp only [registeredLanguages, List.mem_cons, List.not_mem_nil, or_false] at hreg
    rcases hreg with h | h | h | h | h | h | h <;> subst h <;> exact ⟨_, rfl⟩
  have h1 : cfg.test_command.isEmpty = false := by
    cases hc : cfg.test_command with
    | nil => exact absurd hc hcmd
    | cons a l => rfl
  have h2 : ¬ ((w.behavior language).runSecs < cfg.timeout_seconds) :=
    Nat.not_lt.mpr htime
  have hexec : (executeCommand cfg.test_command cfg.timeout_seconds
      (w.behavior language)).result = .error (.timedOut cfg.timeout_seconds) := by
    simp [executeCommand, h1, hspawn, h2]
  have hstep : runTestsForLanguage w language =
      .err (.exec (.timedOut cfg.timeout_seconds)) := by
    obtain ⟨tag, htag⟩ := hcr
    simp [runTestsForLanguage, hlook, htag, runTestsShared, hexec]
  refine ⟨hstep, ?_, ?_⟩
  · simp [runnerRunTests, hstep]
  · simp [runnerRunParallelTests, hstep, List.any_cons, List.filterMap_cons]

/-- Witness for the amended C3: the concrete two-implementation world where
python hangs past its timeout and javascript is fine. -/
theorem timeout_is_hard_error_amended_witness :
    seqWorld.implementations.lookup "python" = some timeoutConfig ∧
    "python" ∈ registeredLanguages ∧
    timeoutConfig.test_command ≠ [] ∧
    (seqWorld.behavior "python").spawnOk = true ∧
    timeoutConfig.timeout_seconds ≤ (seqWorld.behavior "python").runSecs ∧
    runnerRunTests seqWorld ["python", "javascript"] =
      .err (.exec (.timedOut timeoutConfig.timeout_seconds)) ∧
    runnerRunParallelTests seqWorld ["python", "javascript"] =
      runnerRunParallelTests seqWorld ["javascript"] := by
  have h := timeout_is_hard_error_amended seqWorld "python" ["javascript"]
    timeoutConfig rfl (by decide) (by decide) rfl (by decide)
  exact ⟨rfl, by decide, by decide, rfl, by decide, h.2.1, h.2.2⟩

/-- Under the exact-arithmetic idealization of `calculate`, the standard
deviation of `N ≥ 1` copies of one value is zero — the property the spec
intends.  Binary64 rounding breaks it (see the C8 theorems further down);
this lemma is kept as the exact-arithmetic baseline the spec describes. -/
lemma calculate_replicate_std_dev_zero (N : ℕ) (v : ℚ) (h : 0 < N) :
    (StatisticalSummary.calculate (List.replicate N v)).std_dev = 0 := by
  have hne : (List.replicate N v).isEmpty = false := by
    cases N with
    | zero => omega
    | succ n => rfl
  have hN : ((N : ℚ)) ≠ 0 := by
    have : (0 : ℚ) < (N : ℚ) := by exact_mod_cast h
    exact this.ne'
  have hmean : (List.replicate N v).sum / (((List.replicate N v).length : ℕ) : ℚ) = v := by
    rw [List.sum_replicate, List.length_replicate, nsmul_eq_mul]
    exact mul_div_cancel_left₀ v hN
  simp only [StatisticalSummary.calculate, hne, Bool.false_eq_true, if_false]
  rw [hmean]
  rw [List.map_replicate, sub_self, List.sum_replicate]
  simp

lemma minKeep_fastCmp_benchOf (a b : String × ℚ) :
    minKeep fastCmp (benchOf a) (benchOf b) = benchOf (pairMin a b) := by
  rcases lt_trichotomy a.2 b.2 with h | h | h
  · simp [minKeep, fastCmp, benchOf, mkBench, BenchmarkResult.new, F64.partialCmp,
      pairMin, h, lt_asymm h]
  · simp [minKeep, fastCmp, benchOf, mkBench, BenchmarkResult.new, F64.partialCmp,
      pairMin, h, lt_irrefl]
  · simp [minKeep, fastCmp, benchOf, mkBench, BenchmarkResult.new, F64.partialCmp,
      pairMin, h, lt_asymm h, ne_of_gt h]

lemma foldl_minKeep_benchOf :
    ∀ (qs : List (String × ℚ)) (p : String × ℚ),
      qs.foldl (fun acc q => minKeep fastCmp acc (benchOf q)) (benchOf p) =
        benchOf (qs.foldl pairMin p) := by
  intro qs
  induction qs with
  | nil => intro p; rfl
  | cons q rest ih =>
      intro p
      simp only [List.foldl_cons, minKeep_fastCmp_benchOf]
      exact ih (pairMin p q)

lemma foldl_pairMin_firstMin :
    ∀ (qs : List (String × ℚ)) (p : String × ℚ),
      qs.foldl pairMin p =
        (firstMinSpec Prod.snd qs).elim p (fun m => if m.2 < p.2 then m else p) := by
  intro qs
  induction qs with
  | nil => intro p; rfl
  | cons q rest ih =>
      intro p
      simp only [List.foldl_cons]
      rw [ih (pairMin p q)]
      cases hrest : firstMinSpec Prod.snd rest with
      | none => simp [firstMinSpec, hrest, pairMin, Option.elim]
      | some m =>
          simp only [firstMinSpec, hrest, Option.elim]
          unfold pairMin
          split_ifs <;> first | rfl | (exfalso; linarith)

/-- Claim C5: `fastest_implementation` is `None` on the empty list; on any
list of results with finite (non-NaN) averages it is the language of the
first result attaining the minimal `avg_time_per_case_ms`; on the scenario
averages `[12.5, 8.0, 8.0]` for `A, B, C` it is `B`; and NaN averages are
compared as equal (no panic), the first result surviving. -/
theorem fastestImplementation_spec (qs : List (String × ℚ)) :
    fastestImplementation [] = none ∧
    fastestImplementation (qs.map benchOf) =
      (firstMinSpec Prod.snd qs).map Prod.fst ∧
    fastestImplementation [mkBench "A" (F64.finite 12.5),
      mkBench "B" (F64.finite 8), mkBench "C" (F64.finite 8)] = some "B" ∧
    fastestImplementation [mkBench "A" F64.nan, mkBench "B" F64.nan] = some "A" := by
  refine ⟨rfl, ?_, ?_, rfl⟩
  · cases qs with
    | nil => rfl
    | cons p ps =>
        have hmin : minByFirst fastCmp (benchOf p :: ps.map benchOf) =
            some (benchOf ((firstMinSpec Prod.snd ps).elim p
              (fun m => if m.2 < p.2 then m else p))) := by
          show some ((ps.map benchOf).foldl (minKeep fastCmp) (benchOf p)) = _
          rw [List.foldl_map, foldl_minKeep_benchOf, foldl_pairMin_firstMin]
        simp only [List.map_cons, fastestImplementation, hmin, Option.map_some']
        cases hps : firstMinSpec Prod.snd ps with
        | none => simp [firstMinSpec, hps, benchOf, mkBench, BenchmarkResult.new]
        | some m =>
            simp only [firstMinSpec, hps, Option.elim, Option.map_some']
            by_cases hm : m.2 < p.2 <;>
              simp [hm, benchOf, mkBench, BenchmarkResult.new]
  · norm_num [fastestImplementation, minByFirst, minKeep, fastCmp,
      F64.partialCmp, mkBench, BenchmarkResult.new]

lemma maxKeep_rateCmp (a y : TestResult) :
    maxKeep rateCmp a y = if passRate y < passRate a then a else y := by
  rcases lt_trichotomy (passRate a) (passRate y) with h | h | h
  · simp [maxKeep, rateCmp, qPartialCmp, h, lt_asymm h]
  · simp [maxKeep, rateCmp, qPartialCmp, h, lt_irrefl]
  · simp [maxKeep, rateCmp, qPartialCmp, h, lt_asymm h, ne_of_gt h]

lemma foldl_maxKeep_rate :
    ∀ (xs : List TestResult) (x : TestResult),
      (xs.foldl (maxKeep rateCmp) x = x ∨ xs.foldl (maxKeep rateCmp) x ∈ xs) ∧
      passRate x ≤ passRate (xs.foldl (maxKeep rateCmp) x) ∧
      ∀ y ∈ xs, passRate y ≤ passRate (xs.foldl (maxKeep rateCmp) x) := by
  intro xs
  induction xs with
  | nil => intro x; exact ⟨Or.inl rfl, le_refl _, by simp⟩
  | cons y ys ih =>
      intro x
      simp only [List.foldl_cons]
      obtain ⟨hmem, hle, hall⟩ := ih (maxKeep rateCmp x y)
      have hstep := maxKeep_rateCmp x y
      refine ⟨?_, ?_, ?_⟩
      · rcases hmem with h | h
        · rw [h, hstep]
          by_cases hc : passRate y < passRate x
          · exact Or.inl (by rw [if_pos hc])
          · refine Or.inr ?_
            rw [if_neg hc]
            exact List.mem_cons_self y ys
        · exact Or.inr (List.mem_cons_of_mem y h)
      · refine le_trans ?_ hle
        rw [hstep]
        by_cases hc : passRate y < passRate x
        · rw [if_pos hc]
        · rw [if_neg hc]
          exact le_of_not_lt hc
      · intro z hz
        rcases List.mem_cons.mp hz with rfl | hz2
        · refine le_trans ?_ hle
          rw [hstep]
          by_cases hc : passRate z < passRate x
          · rw [if_pos hc]
            exact le_of_lt hc
          · rw [if_neg hc]
        · exact hall z hz2

/-- Claim C6: `most_compliant_implementation` is `None` on the empty list;
on any non-empty list it is the language of a result attaining the maximal
pass rate `passed/total` (a zero total counting as rate 0); on the scenario
rates `[9/10, 9/10, 19/20]` for `A, B, C` it is `C`; and a result with zero
total cases has pass rate 0. -/
theorem mostCompliantImplementation_spec (x : TestResult) (xs : List TestResult) :
    mostCompliantImplementation [] = none ∧
    (∃ r, (r = x ∨ r ∈ xs) ∧
      mostCompliantImplementation (x :: xs) = some r.language ∧
      passRate x ≤ passRate r ∧ ∀ s ∈ xs, passRate s ≤ passRate r) ∧
    mostCompliantImplementation
      [mkTest "A" 9 10, mkTest "B" 9 10, mkTest "C" 19 20] = some "C" ∧
    (∀ (language : String) (passed : Nat),
      passRate (mkTest language passed 0) = 0) := by
  refine ⟨rfl, ?_, ?_,
    fun language passed => by simp [passRate, mkTest, TestResult.new]⟩
  · obtain ⟨hmem, hle, hall⟩ := foldl_maxKeep_rate xs x
    exact ⟨xs.foldl (maxKeep rateCmp) x, hmem, rfl, hle, hall⟩
  · norm_num [mostCompliantImplementation, maxByLast, maxKeep, rateCmp,
      qPartialCmp, passRate, mkTest, TestResult.new]

lemma mergeSort_eq_insertionSort (values : List ℚ) :
    values.mergeSort (fun a b => decide (a ≤ b)) =
      List.insertionSort (· ≤ ·) values := by
  apply List.eq_of_perm_of_sorted (r := (· ≤ ·))
  · exact (List.mergeSort_perm values _).trans
      (List.perm_insertionSort (· ≤ ·) values).symm
  · have hp := @List.sorted_mergeSort ℚ (fun a b : ℚ => decide (a ≤ b))
      (fun a b c hab hbc => by
        simp only [decide_eq_true_eq] at hab hbc ⊢
        exact le_trans hab hbc)
      (fun a b => by rcases le_total a b with hab | hab <;> simp [hab])
      values
    exact List.Pairwise.imp (fun hab => of_decide_eq_true hab) hp
  · exact List.sorted_insertionSort (· ≤ ·) values

/-- Claim C7: on every non-empty sample list, the median computed by
`StatisticalSummary::calculate` (over its `sort_by`-sorted copy) equals the
conventional median over the reference insertion-sorted list: the middle
element for odd length, the average of the two middle elements for even
length. -/
theorem calculate_median_eq_conventional (values : List ℚ) (h : values ≠ []) :
    (StatisticalSummary.calculate values).median = conventionalMedian values := by
  have hne : values.isEmpty = false := by
    cases values with
    | nil => exact absurd rfl h
    | cons a l => rfl
  have hsort := mergeSort_eq_insertionSort values
  have hlen : (List.insertionSort (· ≤ ·) values).length = values.length :=
    (List.perm_insertionSort (· ≤ ·) values).length_eq
  simp only [StatisticalSummary.calculate, conventionalMedian, hne,
    Bool.false_eq_true, if_false, hsort, hlen]

/-- Witness for C7 at the concrete sample list `[3, 1, 2]`. -/
theorem calculate_median_eq_conventional_witness :
    (([3, 1, 2] : List ℚ) ≠ []) ∧
    (StatisticalSummary.calculate [3, 1, 2]).median = conventionalMedian [3, 1, 2] := by
  have h : (([3, 1, 2] : List ℚ)) ≠ [] := by simp
  exact ⟨h, calculate_median_eq_conventional [3, 1, 2] h⟩

/-- Instance of the exact-arithmetic baseline at three copies of 7. -/
lemma calculate_replicate_std_dev_zero_inst :
    0 < 3 ∧ (StatisticalSummary.calculate (List.replicate 3 (7 : ℚ))).std_dev = 0 :=
  ⟨by decide, calculate_replicate_std_dev_zero 3 7 (by decide)⟩

lemma int_log2_ge (x : ℚ) (e : ℤ) (h1 : (2:ℚ)^e ≤ x) : e ≤ Int.log 2 x := by
  have hx : 0 < x := lt_of_lt_of_le (zpow_pos (by norm_num) e) h1
  by_contra hcon
  push_neg at hcon
  have h2 := Int.lt_zpow_succ_log_self (b := 2) one_lt_two x
  have hcast : ((2:ℕ):ℚ) = (2:ℚ) := by norm_num
  rw [hcast] at h2
  have h3 : (2:ℚ)^(Int.log 2 x + 1) ≤ 2^e := zpow_le_zpow_right₀ one_le_two (by omega)
  linarith

lemma int_log2_lt (x : ℚ) (e : ℤ) (hx : 0 < x) (h2 : x < (2:ℚ)^e) :
    Int.log 2 x < e := by
  by_contra hcon
  push_neg at hcon
  have h1 := Int.zpow_log_le_self (b := 2) one_lt_two hx
  have hcast : ((2:ℕ):ℚ) = (2:ℚ) := by norm_num
  rw [hcast] at h1
  have h3 : (2:ℚ)^e ≤ 2^(Int.log 2 x) := zpow_le_zpow_right₀ one_le_two hcon
  linarith

lemma int_log2_eq (x : ℚ) (e : ℤ) (h1 : (2:ℚ)^e ≤ x) (h2 : x < (2:ℚ)^(e+1)) :
    Int.log 2 x = e := by
  have hx : 0 < x := lt_of_lt_of_le (zpow_pos (by norm_num) e) h1
  have ha := int_log2_ge x e h1
  have hb := int_log2_lt x (e+1) hx h2
  omega

lemma fl53_pos_eval (x : ℚ) (e : ℤ) (h1 : (2:ℚ)^e ≤ x) (h2 : x < (2:ℚ)^(e+1)) :
    fl53 x = (rne (x / 2 ^ (e - 52)) : ℚ) * 2 ^ (e - 52) := by
  have hx : 0 < x := lt_of_lt_of_le (zpow_pos (by norm_num) e) h1
  rw [fl53, if_neg hx.ne', if_pos hx, int_log2_eq x e h1 h2]

lemma rne_intCast (n : ℤ) : rne ((n : ℚ)) = n := by
  rw [rne, Int.floor_intCast]
  norm_num

lemma fl53_zero : fl53 0 = 0 := by
  rw [fl53, if_pos rfl]

lemma fl53_exact (m e : ℤ) (h0 : 0 < m) (h53 : m < 2^53) :
    fl53 ((m:ℚ) * 2^e) = (m:ℚ) * 2^e := by
  have hx : (0:ℚ) < (m:ℚ) * 2^e :=
    mul_pos (by exact_mod_cast h0) (zpow_pos (by norm_num) e)
  have hm1 : (1:ℚ) ≤ (m:ℚ) := by exact_mod_cast h0
  have hlb : (2:ℚ)^e ≤ (m:ℚ) * 2^e :=
    le_mul_of_one_le_left (le_of_lt (zpow_pos (by norm_num) e)) hm1
  have hub : (m:ℚ) * 2^e < (2:ℚ)^(e+53) := by
    have hm2 : (m:ℚ) < (2:ℚ)^(53:ℤ) := by
      rw [show ((2:ℚ)^(53:ℤ)) = ((2:ℚ)^(53:ℕ)) from zpow_natCast 2 53]
      exact_mod_cast h53
    calc (m:ℚ) * 2^e < (2:ℚ)^(53:ℤ) * 2^e :=
          mul_lt_mul_of_pos_right hm2 (zpow_pos (by norm_num) e)
      _ = (2:ℚ)^(e+53) := by rw [← zpow_add₀ (by norm_num : (2:ℚ) ≠ 0)]; ring_nf
  set L := Int.log 2 ((m:ℚ) * 2^e) with hL
  have hLe : e ≤ L := int_log2_ge _ e hlb
  have hLu : L < e + 53 := int_log2_lt _ (e+53) hx hub
  have hnn : 0 ≤ e - (L - 52) := by omega
  have hq : ((m:ℚ) * 2^e) / 2^(L-52) = ((m * 2^(e - (L-52)).toNat : ℤ) : ℚ) := by
    push_cast
    rw [div_eq_iff (by positivity : ((2:ℚ)^(L-52)) ≠ 0)]
    rw [← zpow_natCast (2:ℚ) (e - (L-52)).toNat, Int.toNat_of_nonneg hnn]
    rw [mul_assoc, ← zpow_add₀ (by norm_num : (2:ℚ) ≠ 0), sub_add_cancel]
  rw [fl53, if_neg hx.ne', if_pos hx, ← hL, hq, rne_intCast]
  push_cast
  rw [← zpow_natCast (2:ℚ) (e - (L-52)).toNat, Int.toNat_of_nonneg hnn]
  rw [mul_assoc, ← zpow_add₀ (by norm_num : (2:ℚ) ≠ 0), sub_add_cancel]

lemma fl53_neg (x : ℚ) : fl53 (-x) = -fl53 x := by
  rcases lt_trichotomy x 0 with h | h | h
  · have hx0 : ¬ x = 0 := h.ne
    have hnx : 0 < -x := by linarith
    rw [fl53, fl53, if_neg (by simpa using hx0), if_pos hnx,
      if_neg hx0, if_neg (by linarith : ¬ 0 < x), neg_neg]
  · subst h
    rw [neg_zero, fl53_zero]
    norm_num [fl53_zero]
  · have hx0 : ¬ x = 0 := h.ne'
    have hnx : ¬ (0:ℚ) < -x := by linarith
    rw [fl53, fl53, if_neg (by simpa using hx0), if_neg hnx,
      if_neg hx0, if_pos h, neg_neg]

lemma fl53_lit (m : ℤ) (k : ℕ) (h0 : 0 < m) (h53 : m < 2^53) :
    fl53 ((m:ℚ) / 2^k) = (m:ℚ) / 2^k := by
  have hh : (m:ℚ) / 2^k = (m:ℚ) * 2^(-(k:ℤ)) := by
    rw [zpow_neg, zpow_natCast, div_eq_mul_inv]
  rw [hh, fl53_exact m (-(k:ℤ)) h0 h53]

lemma rne_of_gt_half (n : ℤ) (m : ℚ) (h1 : (n:ℚ) + 1/2 < m) (h2 : m < (n:ℚ) + 1) :
    rne m = n + 1 := by
  have hf : ⌊m⌋ = n := Int.floor_eq_iff.mpr ⟨by linarith, by push_cast; linarith⟩
  rw [rne, hf, if_neg (by push_cast; linarith), if_pos (by push_cast; linarith)]

lemma rne_of_half_odd (n : ℤ) (m : ℚ) (h : m = (n:ℚ) + 1/2) (hodd : ¬ (2:ℤ) ∣ n) :
    rne m = n + 1 := by
  have hf : ⌊m⌋ = n :=
    Int.floor_eq_iff.mpr ⟨by rw [h]; linarith, by rw [h]; push_cast; linarith⟩
  rw [rne, hf, if_neg (by rw [h]; push_cast; linarith),
    if_neg (by rw [h]; push_cast; linarith), if_neg hodd]

lemma sumF64_triple (a b c : ℚ) :
    sumF64 [a, b, c] = addF64 (addF64 (addF64 0 a) b) c := rfl

lemma sumF64_pair (a b : ℚ) : sumF64 [a, b] = addF64 (addF64 0 a) b := rfl

lemma addF64_0_v01 : addF64 0 v01 = v01 := by
  rw [addF64, zero_add]
  show fl53 ((3602879701896397:ℚ) / 2 ^ 55) = (3602879701896397:ℚ) / 2 ^ 55
  have h := fl53_lit 3602879701896397 55 (by norm_num) (by norm_num)
  simpa using h

lemma addF64_v01_v01 : addF64 v01 v01 = (3602879701896397:ℚ) / 2^54 := by
  rw [addF64]
  have hx : v01 + v01 = (3602879701896397:ℚ) / 2^54 := by
    show (3602879701896397:ℚ)/2^55 + (3602879701896397:ℚ)/2^55 = _
    norm_num
  rw [hx]
  have h := fl53_lit 3602879701896397 54 (by norm_num) (by norm_num)
  simpa using h

/-- The third addition of `0.1 + 0.1 + 0.1` lands exactly halfway between
two representable values; round-to-even picks the upper one, giving the
familiar `0.30000000000000004`. -/
lemma addF64_tie : addF64 ((3602879701896397:ℚ)/2^54) v01 =
    (5404319552844596:ℚ)/2^54 := by
  rw [addF64]
  have hx : (3602879701896397:ℚ)/2^54 + v01 = (10808639105689191:ℚ)/2^55 := by
    show _ + (3602879701896397:ℚ)/2^55 = ((10808639105689191:ℚ)/2^55)
    norm_num
  rw [hx]
  rw [fl53_pos_eval _ (-2) (by norm_num) (by norm_num)]
  have hm : (10808639105689191:ℚ)/2^55 / 2^((-2:ℤ) - 52) =
      (5404319552844595:ℚ) + 1/2 := by
    rw [zpow_sub₀ (by norm_num : (2:ℚ) ≠ 0)]
    norm_num
  rw [hm, rne_of_half_odd 5404319552844595 _ (by push_cast; ring) (by omega)]
  push_cast
  norm_num [zpow_neg, div_eq_mul_inv]

lemma sumF64_three_v01 : sumF64 [v01, v01, v01] = (5404319552844596:ℚ)/2^54 := by
  rw [sumF64_triple, addF64_0_v01, addF64_v01_v01, addF64_tie]

/-- Dividing the rounded sum by 3 rounds again, to one ulp above the double
0.1. -/
lemma meanF64_three_v01 :
    meanF64 [v01, v01, v01] = (7205759403792795:ℚ)/2^56 := by
  rw [meanF64, sumF64_three_v01]
  have hlen : (([v01, v01, v01] : List ℚ).length : ℚ) = 3 := by norm_num
  rw [hlen, divF64]
  rw [fl53_pos_eval _ (-4) (by norm_num) (by norm_num)]
  have hm : (5404319552844596:ℚ)/2^54 / 3 / 2^((-4:ℤ) - 52) =
      (7205759403792794:ℚ) + 2/3 := by
    rw [zpow_sub₀ (by norm_num : (2:ℚ) ≠ 0)]
    norm_num
  rw [hm, rne_of_gt_half 7205759403792794 _ (by push_cast; norm_num)
    (by push_cast; norm_num)]
  push_cast
  norm_num [zpow_neg, div_eq_mul_inv]

lemma subF64_dev : subF64 v01 ((7205759403792795:ℚ)/2^56) = -(1/2^56) := by
  rw [subF64]
  have hx : v01 - (7205759403792795:ℚ)/2^56 = -((1:ℚ)/2^56) := by
    show (3602879701896397:ℚ)/2^55 - _ = _
    norm_num
  rw [hx, fl53_neg]
  have h := fl53_lit 1 56 (by norm_num) (by norm_num)
  simp only [Int.cast_one] at h
  rw [h]

lemma mulF64_dev : mulF64 (-(1/2^56 : ℚ)) (-(1/2^56 : ℚ)) = (1:ℚ)/2^112 := by
  rw [mulF64]
  have hx : (-(1/2^56 : ℚ)) * (-(1/2^56 : ℚ)) = (1:ℚ)/2^112 := by norm_num
  rw [hx]
  have h := fl53_lit 1 112 (by norm_num) (by norm_num)
  simpa using h

lemma sumF64_three_sq :
    sumF64 [(1:ℚ)/2^112, (1:ℚ)/2^112, (1:ℚ)/2^112] = (3:ℚ)/2^112 := by
  rw [sumF64_triple]
  have h1 : addF64 0 ((1:ℚ)/2^112) = (1:ℚ)/2^112 := by
    rw [addF64, zero_add]
    have h := fl53_lit 1 112 (by norm_num) (by norm_num)
    simpa using h
  have h2 : addF64 ((1:ℚ)/2^112) ((1:ℚ)/2^112) = (1:ℚ)/2^111 := by
    rw [addF64]
    have hx : (1:ℚ)/2^112 + (1:ℚ)/2^112 = (1:ℚ)/2^111 := by norm_num
    rw [hx]
    have h := fl53_lit 1 111 (by norm_num) (by norm_num)
    simpa using h
  have h3 : addF64 ((1:ℚ)/2^111) ((1:ℚ)/2^112) = (3:ℚ)/2^112 := by
    rw [addF64]
    have hx : (1:ℚ)/2^111 + (1:ℚ)/2^112 = (3:ℚ)/2^112 := by norm_num
    rw [hx]
    have h := fl53_lit 3 112 (by norm_num) (by norm_num)
    simpa using h
  rw [h1, h2, h3]

lemma ratSqrt_var : ratSqrt ((1:ℚ)/2^112) = (1:ℚ)/2^56 := by
  have hq : (1:ℚ)/2^112 = ((2^112 : ℕ) : ℚ)⁻¹ := by
    rw [one_div]
    norm_num
  rw [ratSqrt, hq, Rat.inv_natCast_num, Rat.inv_natCast_den, if_neg (by norm_num)]
  rw [Int.sign_eq_one_of_pos (by norm_num)]
  rw [show (2^112:ℕ) = 2^56 * 2^56 from by norm_num, Nat.sqrt_eq]
  norm_num

lemma stdDevF64_of_var : sqrtF64 ((1:ℚ)/2^112) = (1:ℚ)/2^56 := by
  rw [sqrtF64, ratSqrt_var]
  have h := fl53_lit 1 56 (by norm_num) (by norm_num)
  simpa using h

lemma ratSqrt_zero : ratSqrt 0 = 0 := by
  have h0 : Int.sqrt 0 = 0 := by
    rw [show (0:ℤ) = 0*0 from by ring, Int.sqrt_eq]
    rfl
  rw [ratSqrt, Rat.num_zero, h0]
  norm_num

/-- Claim C8, counterexample: under the bit-faithful binary64 semantics the
standard deviation of three copies of the double 0.1 is not 0.  The sum
`0.1 + 0.1 + 0.1` hits a round-to-even tie and becomes
`0.30000000000000004`, the division by 3 rounds to one ulp above 0.1, every
deviation is exactly `-2^-56`, and `sqrt(2^-112) = 2^-56 ≠ 0`. -/
theorem stdDevF64_three_copies_of_tenth :
    stdDevF64 (List.replicate 3 v01) = (1:ℚ)/2^56 ∧
    stdDevF64 (List.replicate 3 v01) ≠ 0 := by
  have hrep : List.replicate 3 v01 = [v01, v01, v01] := rfl
  have hmean3 : meanF64 (List.replicate 3 v01) = (7205759403792795:ℚ)/2^56 := by
    rw [hrep]
    exact meanF64_three_v01
  have hmap : (List.replicate 3 v01).map (fun x =>
      mulF64 (subF64 x (meanF64 (List.replicate 3 v01)))
             (subF64 x (meanF64 (List.replicate 3 v01)))) =
      [(1:ℚ)/2^112, (1:ℚ)/2^112, (1:ℚ)/2^112] := by
    rw [hmean3, List.map_replicate, subF64_dev, mulF64_dev]
    rfl
  have hvar : varianceF64 (List.replicate 3 v01) = (1:ℚ)/2^112 := by
    rw [varianceF64, hmap, sumF64_three_sq]
    have hlen : ((List.replicate 3 v01).length : ℚ) = 3 := by simp
    rw [hlen, divF64]
    have hx : (3:ℚ)/2^112 / 3 = (1:ℚ)/2^112 := by norm_num
    rw [hx]
    have h := fl53_lit 1 112 (by norm_num) (by norm_num)
    simpa using h
  refine ⟨?_, ?_⟩
  · rw [stdDevF64, hvar, stdDevF64_of_var]
  · rw [stdDevF64, hvar, stdDevF64_of_var]
    norm_num

/-- Claim C8, amended: whenever the binary64 mean of the `N ≥ 1` copies of
`v` equals `v` exactly (as for `N = 1` or `N = 2`, where the accumulation
and the division by `N` are exact), every deviation is exactly zero and the
standard deviation the program computes is exactly 0; the counterexample
above shows the exactness condition cannot be dropped. -/
theorem stdDevF64_replicate_exact_mean (N : ℕ) (v : ℚ) (hN : 0 < N)
    (hmean : meanF64 (List.replicate N v) = v) :
    stdDevF64 (List.replicate N v) = 0 := by
  have hsub : subF64 v v = 0 := by rw [subF64, sub_self, fl53_zero]
  have hmul : mulF64 0 0 = 0 := by rw [mulF64, mul_zero, fl53_zero]
  have hmap : (List.replicate N v).map (fun x =>
      mulF64 (subF64 x (meanF64 (List.replicate N v)))
             (subF64 x (meanF64 (List.replicate N v)))) = List.replicate N 0 := by
    rw [hmean, List.map_replicate, hsub, hmul]
  have hsum0 : ∀ n : ℕ, sumF64 (List.replicate n 0) = 0 := by
    intro n
    induction n with
    | zero => rfl
    | succ k ih =>
        rw [List.replicate_succ]
        show (List.replicate k 0).foldl addF64 (addF64 0 0) = 0
        rw [show addF64 0 0 = 0 from by rw [addF64, add_zero, fl53_zero]]
        exact ih
  rw [stdDevF64, varianceF64, hmap, hsum0 N]
  have hdiv : divF64 0 ((List.replicate N v).length : ℚ) = 0 := by
    rw [divF64, zero_div, fl53_zero]
  rw [hdiv, sqrtF64, ratSqrt_zero, fl53_zero]

lemma meanF64_two_v01 : meanF64 (List.replicate 2 v01) = v01 := by
  have hrep : List.replicate 2 v01 = [v01, v01] := rfl
  rw [hrep, meanF64, sumF64_pair, addF64_0_v01, addF64_v01_v01]
  have hlen : (([v01, v01] : List ℚ).length : ℚ) = 2 := by norm_num
  rw [hlen, divF64]
  have hx : (3602879701896397:ℚ)/2^54 / 2 = (3602879701896397:ℚ)/2^55 := by
    norm_num
  rw [hx]
  show fl53 ((3602879701896397:ℚ)/2^55) = (3602879701896397:ℚ)/2^55
  have h := fl53_lit 3602879701896397 55 (by norm_num) (by norm_num)
  simpa using h

/-- Witness for the amended C8 at two copies of the double 0.1, where the
accumulated sum `2v` and the mean `2v / 2 = v` are exact. -/
theorem stdDevF64_replicate_exact_mean_witness :
    0 < 2 ∧ meanF64 (List.replicate 2 v01) = v01 ∧
    stdDevF64 (List.replicate 2 v01) = 0 :=
  ⟨by norm_num, meanF64_two_v01,
   stdDevF64_replicate_exact_mean 2 v01 (by norm_num) meanF64_two_v01⟩

end FhirpathBench
